import Mathlib

/-!
Verification of the Quilix browser core against its specification.

This file gives a shallow embedding of the session & tab lifecycle manager of
the Quilix browser (`src/core/modern_browser.py` and `src/core/browser_tab.py`)
and proves / refutes the spec claims about it.

Modelling conventions:
* The `QTabWidget` is a list of `TabSlot`s plus a current index (`-1` when the
  widget is empty), with Qt semantics for `addTab` / `removeTab` /
  `setCurrentIndex` / `clear` made explicit (`widgetAddTab`, `widgetRemoveTab`,
  `widgetSetCurrent`, `widgetClear`).  `QTabBar.setCurrentIndex` ignores an
  out-of-range index; `removeTab` of the current tab selects the tab to its
  right (Qt default `SelectRightTab`), clamped to the new last index.
* `os.urandom(8).hex()` tab-id generation is modelled by a monotone counter
  `nextId`: every id handed out is fresh (never equal to a previously issued
  id), which is the intended behaviour of the 64-bit random ids.
* `QSettings` persistence is modelled by the fields `session`, `sessionIndex`,
  `notes` carried in the state; `save_json HISTORY_FILE` is modelled by the
  `historyFile` field.
* Python `str.strip` / `str.lower` are modelled by `String.trim` /
  `String.toLower` (ASCII, which covers all concrete inputs used here), and
  Python's substring test `a in b` by `strContains`.
-/

namespace Quilix

/-- A history entry: the dict `{"title": ..., "url": ...}` appended by
`ModernBrowser.save_history`, also the shape of a saved session slot
(`ItemHistory` in `model/setting_model.py`). -/
structure HistoryEntry where
  title : String
  url : String
deriving Repr, DecidableEq

/-- State of one ordinary `BrowserTab` widget (`src/core/browser_tab.py`).
`url` is the webview url as a string, `title` the webview title, `text` the
text displayed on the tab button (set to `""` by `add_tab`), `noteText` the
content of the tab's `note_area`, and `tabId` the unique id generated in
`BrowserTab.__init__` (`os.urandom(8).hex()`, modelled by a fresh counter). -/
structure BrowserTab where
  tabId : Nat
  url : String
  title : String
  text : String
  noteText : String
deriving Repr, DecidableEq

/-- One slot of the `QTabWidget`: an ordinary `BrowserTab`, or the special
"+" tab added by `add_plus_tab` (a bare `QWidget` labelled "+"). -/
inductive TabSlot where
  | browser (t : BrowserTab)
  | plus
deriving Repr, DecidableEq

/-- Text displayed on a tab button (`QTabWidget.tabText`). -/
def tabText : TabSlot → String
  | .browser t => t.text
  | .plus => "+"

/-- Whether the slot holds an ordinary tab (`isinstance(w, BrowserTab)`). -/
def TabSlot.isBrowser : TabSlot → Bool
  | .browser _ => true
  | .plus => false

/-- The ordinary (`BrowserTab`) tabs of a slot list, in display order. -/
def ordinaryOf (l : List TabSlot) : List BrowserTab :=
  l.filterMap fun s => match s with
    | .browser t => some t
    | .plus => none

/-- The state of a `ModernBrowser` window that the claims are about:
the tab widget, the persisted settings values and the history file. -/
structure Browser where
  tabs : List TabSlot
  currentIndex : Int
  homeUrl : String
  history : List HistoryEntry
  historyFile : List HistoryEntry
  notes : List (Nat × String)
  session : List HistoryEntry
  sessionIndex : Int
  nextId : Nat
deriving Repr, DecidableEq

/-- The ordinary tabs of the browser, in display order. -/
def ordinaryTabs (b : Browser) : List BrowserTab := ordinaryOf b.tabs

/-- Model of `ModernBrowser.save_history(qurl, tab)`.  `urlStr` is
`qurl.toString()` and `rawTitle` is `tab.webview.title()`; the code computes
`title = tab.webview.title() or url` and appends `{title, url}` when the url
is non-empty and differs from the last recorded url, then rewrites the
history file (`save_json(HISTORY_FILE, self.history)`). -/
def save_history (b : Browser) (urlStr rawTitle : String) : Browser :=
  let title := if rawTitle = "" then urlStr else rawTitle
  if urlStr = "" then b
  else
    match b.history.getLast? with
    | some lastEntry =>
        if lastEntry.url = urlStr then b
        else
          let h := b.history ++ [{ title := title, url := urlStr }]
          { b with history := h, historyFile := h }
    | none =>
        let h := b.history ++ [{ title := title, url := urlStr }]
        { b with history := h, historyFile := h }

/-- Adjacent entries of the history log never repeat a url. -/
def NoConsecDup (l : List HistoryEntry) : Prop :=
  List.Chain' (fun x y => x.url ≠ y.url) l

/-- An empty browser state, used for concrete evaluations. -/
def emptyBrowser : Browser :=
  { tabs := [], currentIndex := -1, homeUrl := "https://google.com",
    history := [], historyFile := [], notes := [], session := [],
    sessionIndex := 0, nextId := 0 }

/-- Recording ("A","http://x") twice in a row from an empty log. -/
def recTwice : Browser :=
  save_history (save_history emptyBrowser "http://x" "A") "http://x" "A"

/-- Recording ("A","http://x"), ("B","http://y"), ("A","http://x"). -/
def recThree : Browser :=
  save_history
    (save_history (save_history emptyBrowser "http://x" "A") "http://y" "B")
    "http://x" "A"

/-- Claim C2, counterexample: the claim quantifies over every title and url,
but `save_history` also refuses an *empty* url: recording ("T","") on an empty
log appends nothing, while the claim ("appends unless the most recent entry
has the same url") demands an append. -/
theorem save_history_empty_url_refutes_C2 :
    (save_history emptyBrowser "" "T").history ≠
      [{ title := "T", url := "" }] ∧
    (save_history emptyBrowser "" "T").history = [] := by
  constructor
  · decide
  · rfl

/-- Claim C2 (amended: for a *non-empty* url): `save_history` appends
`{title, url}` (with `title = rawTitle or url`) unless the most recent entry
has the same url, compared by case-sensitive scheme-inclusive string
equality; it rewrites the persisted file on every accepted append; adjacent
urls never repeat; and the two concrete recording examples give logs of
length 1 and 3. -/
theorem save_history_spec (b : Browser) (urlStr rawTitle : String) :
    (urlStr ≠ "" →
      (save_history b urlStr rawTitle).history =
        (if b.history.getLast?.map HistoryEntry.url = some urlStr then
          b.history
        else
          b.history ++
            [{ title := if rawTitle = "" then urlStr else rawTitle,
               url := urlStr }])) ∧
    (urlStr ≠ "" → b.history.getLast?.map HistoryEntry.url ≠ some urlStr →
      (save_history b urlStr rawTitle).historyFile =
        (save_history b urlStr rawTitle).history) ∧
    (NoConsecDup b.history →
      NoConsecDup (save_history b urlStr rawTitle).history) ∧
    recTwice.history.length = 1 ∧
    recThree.history.length = 3 := by
  refine ⟨?_, ?_, ?_, by decide, by decide⟩
  · intro hne
    unfold save_history
    simp only [if_neg hne]
    cases hlast : b.history.getLast? with
    | none => simp [hlast]
    | some lastEntry =>
        by_cases hdup : lastEntry.url = urlStr
        · simp [hlast, hdup]
        · simp [hlast, hdup]
  · intro hne hdiff
    unfold save_history
    simp only [if_neg hne]
    cases hlast : b.history.getLast? with
    | none => simp
    | some lastEntry =>
        have : lastEntry.url ≠ urlStr := by
          intro h
          exact hdiff (by simp [hlast, h])
        simp [this]
  · intro hchain
    unfold save_history
    by_cases hne : urlStr = ""
    · simpa [hne] using hchain
    cases hlast : b.history.getLast? with
    | none =>
        have hnil : b.history = [] := List.getLast?_eq_none_iff.mp hlast
        simp [hne, hnil, NoConsecDup]
    | some lastEntry =>
        by_cases hdup : lastEntry.url = urlStr
        · simpa [hne, hdup] using hchain
        · simp only [if_neg hne, if_neg hdup]
          unfold NoConsecDup at hchain ⊢
          rw [List.chain'_append]
          refine ⟨hchain, List.chain'_singleton _, ?_⟩
          intro x hx y hy
          simp at hy
          rw [hlast] at hx
          simp at hx
          subst hx hy
          simpa using hdup

/-- Claim C2 witness: recording ("A","http://x") on an empty log appends it,
and the persisted file equals the log afterwards. -/
theorem save_history_spec_witness :
    (("http://x" : String) ≠ "") ∧
    (save_history emptyBrowser "http://x" "A").history =
      (if emptyBrowser.history.getLast?.map HistoryEntry.url =
          some "http://x" then
        emptyBrowser.history
      else
        emptyBrowser.history ++
          [{ title := if ("A" : String) = "" then "http://x" else "A",
             url := "http://x" }]) ∧
    (save_history emptyBrowser "http://x" "A").historyFile =
      (save_history emptyBrowser "http://x" "A").history := by
  have h := save_history_spec emptyBrowser "http://x" "A"
  exact ⟨by decide, h.1 (by decide), h.2.1 (by decide) (by decide)⟩

/-- Claim C10: recording an entry with an empty url leaves both the in-memory
history list and the persisted history file (and in fact the whole browser
state) unchanged, whatever the title and the current log are. -/
theorem save_history_empty_url_noop (b : Browser) (rawTitle : String) :
    save_history b "" rawTitle = b := by
  unfold save_history
  simp

/-! ## Pomodoro timer (`toggle_pomodoro`, `pomodoro_tick`) -/

/-- The pomodoro fields of `ModernBrowser`: `pomodoro_state` (the strings
"idle" / "running" used by the code), `pomodoro_time` (a Python int),
whether `pomodoro_timer` (a `QTimer`) is currently started, and the number
of "Time's up!" completion messages shown so far (the observable completion
signal). -/
structure Pomodoro where
  state : String
  time : Int
  timerActive : Bool
  completions : Nat
deriving Repr, DecidableEq

/-- Model of `ModernBrowser.toggle_pomodoro`.  `mins` and `ok` are the result
of the `QInputDialog.getInt` prompt (only consulted in the idle branch; the
dialog constrains `mins` to 1..120).  When idle and confirmed, the timer
starts with `mins * 60` seconds; otherwise, when not idle, the timer is
stopped and the state reset to idle (the remaining time is not touched). -/
def toggle_pomodoro (p : Pomodoro) (mins : Int) (ok : Bool) : Pomodoro :=
  if p.state = "idle" then
    if ok then
      { p with time := mins * 60, state := "running", timerActive := true }
    else p
  else
    { p with timerActive := false, state := "idle" }

/-- Model of `ModernBrowser.pomodoro_tick`: decrement the remaining time;
on reaching zero (or below) stop the timer, reset the state and show the
"Time's up!" completion message. -/
def pomodoro_tick (p : Pomodoro) : Pomodoro :=
  let t := p.time - 1
  if t ≤ 0 then
    { p with time := t, timerActive := false, state := "idle",
             completions := p.completions + 1 }
  else
    { p with time := t }

/-- One second of wall time: the `QTimer` fires `pomodoro_tick` only while
the schedule is running. -/
def tickEvent (p : Pomodoro) : Pomodoro :=
  if p.timerActive then pomodoro_tick p else p

/-- A stopped timer is a fixed point of the tick schedule. -/
theorem tickEvent_inactive (p : Pomodoro) (h : p.timerActive = false) :
    tickEvent p = p := by
  simp [tickEvent, h]

/-- Trajectory of a running timer that started with `m` seconds left:
each tick decrements the remaining time, and the `m`-th tick stops the
schedule, resets the state and fires the completion signal once. -/
theorem tickEvent_trajectory (m : Nat) (c : Nat) (hm : 0 < m) :
    ∀ k : Nat, k ≤ m →
      tickEvent^[k]
          { state := "running", time := (m : Int), timerActive := true,
            completions := c } =
        (if k < m then
          { state := "running", time := ((m : Int) - k), timerActive := true,
            completions := c }
        else
          { state := "idle", time := 0, timerActive := false,
            completions := c + 1 }) := by
  intro k
  induction k with
  | zero =>
      intro h
      simp [hm]
  | succ k ih =>
      intro h
      have hk : k ≤ m := Nat.le_of_succ_le h
      have hklt : k < m := Nat.lt_of_succ_le h
      rw [Function.iterate_succ_apply', ih hk, if_pos hklt]
      by_cases hlast : k + 1 < m
      · have hpos : (0 : Int) < (m : Int) - k - 1 := by
          have : (k : Int) + 1 < (m : Int) := by exact_mod_cast hlast
          omega
        rw [if_pos hlast]
        simp only [tickEvent, pomodoro_tick]
        have hns : ¬ ((m : Int) - k - 1 ≤ 0) := by omega
        simp [hns]
        omega
      · have hkm : k + 1 = m := by omega
        rw [if_neg hlast]
        simp only [tickEvent, pomodoro_tick]
        have hz : (m : Int) - k - 1 = 0 := by
          have : (k : Int) + 1 = (m : Int) := by exact_mod_cast hkm
          omega
        have hle : (m : Int) - k - 1 ≤ 0 := by omega
        simp [hle, hz]

/-- Claim C9: starting the pomodoro from idle with a 1-minute duration sets
the remaining time to 60 seconds; each of the first 60 ticks decrements it;
after exactly 60 ticks the state is idle, the completion signal has fired
exactly once (and never before the 60th tick), and the schedule is stopped
so further ticks change nothing. -/
theorem pomodoro_one_minute_run (p : Pomodoro) (hidle : p.state = "idle") :
    (toggle_pomodoro p 1 true).state = "running" ∧
    (toggle_pomodoro p 1 true).time = 60 ∧
    (toggle_pomodoro p 1 true).timerActive = true ∧
    (∀ k : Nat, k ≤ 60 →
      (tickEvent^[k] (toggle_pomodoro p 1 true)).time = 60 - (k : Int)) ∧
    (∀ k : Nat, k < 60 →
      (tickEvent^[k] (toggle_pomodoro p 1 true)).state = "running" ∧
      (tickEvent^[k] (toggle_pomodoro p 1 true)).completions =
        p.completions) ∧
    (tickEvent^[60] (toggle_pomodoro p 1 true)).state = "idle" ∧
    (tickEvent^[60] (toggle_pomodoro p 1 true)).timerActive = false ∧
    (tickEvent^[60] (toggle_pomodoro p 1 true)).completions =
      p.completions + 1 ∧
    (∀ n : Nat,
      tickEvent^[n] (tickEvent^[60] (toggle_pomodoro p 1 true)) =
        tickEvent^[60] (toggle_pomodoro p 1 true)) := by
  have hstart :
      toggle_pomodoro p 1 true =
        { state := "running", time := (60 : Int), timerActive := true,
          completions := p.completions } := by
    simp [toggle_pomodoro, hidle]
  have htraj := tickEvent_trajectory 60 p.completions (by omega)
  simp only [Nat.cast_ofNat] at htraj
  have h60 := htraj 60 (by omega)
  rw [hstart]
  refine ⟨rfl, rfl, rfl, ?_, ?_, ?_, ?_, ?_, ?_⟩
  · intro k hk
    rw [htraj k hk]
    by_cases hlt : k < 60
    · simp [hlt]
    · have : k = 60 := by omega
      subst this
      simp
  · intro k hk
    rw [htraj k (Nat.le_of_lt hk), if_pos hk]
    exact ⟨rfl, rfl⟩
  · rw [h60]; simp
  · rw [h60]; simp
  · rw [h60]; simp
  · intro n
    rw [h60]
    simp only [if_neg (by omega : ¬ (60 < 60))]
    exact Function.iterate_fixed (tickEvent_inactive _ rfl) n

/-- Claim C9 witness: the 1-minute run evaluated from the concrete idle
state `⟨"idle", 0, false, 0⟩`. -/
theorem pomodoro_one_minute_run_witness :
    (({ state := "idle", time := 0, timerActive := false,
        completions := 0 } : Pomodoro).state = "idle") ∧
    (tickEvent^[60]
        (toggle_pomodoro
          { state := "idle", time := 0, timerActive := false,
            completions := 0 } 1 true)).state = "idle" ∧
    (tickEvent^[60]
        (toggle_pomodoro
          { state := "idle", time := 0, timerActive := false,
            completions := 0 } 1 true)).completions = 0 + 1 := by
  have h := pomodoro_one_minute_run
    { state := "idle", time := 0, timerActive := false, completions := 0 }
    rfl
  exact ⟨rfl, h.2.2.2.2.2.1, h.2.2.2.2.2.2.2.1⟩

/-- Claim C8, counterexample: with the timer running, invoking the pomodoro
control is not a no-op that leaves the state `running` — it stops the timer
(the state becomes "idle"). -/
theorem toggle_pomodoro_running_refutes_C8 :
    (toggle_pomodoro
        { state := "running", time := 300, timerActive := true,
          completions := 0 } 25 true).state = "idle" ∧
    ("idle" : String) ≠ "running" := by
  constructor
  · rfl
  · decide

/-- Claim C8 (amended): invoking the pomodoro control while the timer is
running stops it — the state becomes idle, the schedule stops, and the
remaining seconds are left unchanged; the start-with-duration branch is only
reachable from the idle state, so a running timer can never be restarted. -/
theorem toggle_pomodoro_running_stops (p : Pomodoro) (mins : Int) (ok : Bool)
    (h : p.state = "running") :
    toggle_pomodoro p mins ok =
      { p with state := "idle", timerActive := false } := by
  have : ¬ (p.state = "idle") := by rw [h]; decide
  simp [toggle_pomodoro, this]

/-- Claim C8 witness: stopping a concrete running timer keeps 300 seconds
remaining and sets the state to idle. -/
theorem toggle_pomodoro_running_stops_witness :
    (({ state := "running", time := 300, timerActive := true,
        completions := 0 } : Pomodoro).state = "running") ∧
    toggle_pomodoro
        { state := "running", time := 300, timerActive := true,
          completions := 0 } 25 true =
      { state := "idle", time := 300, timerActive := false,
        completions := 0 } := by
  exact ⟨rfl,
    toggle_pomodoro_running_stops
      { state := "running", time := 300, timerActive := true,
        completions := 0 } 25 true rfl⟩

/-! ## Smart search (`ModernBrowser.smart_search`) -/

/-- Python `str.lower` (ASCII model, mapping each character). -/
def pyLower (s : String) : String := ⟨s.data.map Char.toLower⟩

/-- Python `str.strip`: drop leading and trailing whitespace. -/
def pyStrip (s : String) : String :=
  ⟨((s.data.dropWhile Char.isWhitespace).reverse.dropWhile
      Char.isWhitespace).reverse⟩

/-- Python `s.startswith(p)`. -/
def pyStartsWith (s p : String) : Bool := p.data.isPrefixOf s.data

/-- Python `c in s` for a single character. -/
def pyContainsChar (s : String) (c : Char) : Bool := s.data.contains c

/-- Containment of `needle` in `hay` as a contiguous character run:
Python's substring test `needle in hay`. -/
def containsSub (needle : List Char) : List Char → Bool
  | [] => needle.isEmpty
  | c :: t => needle.isPrefixOf (c :: t) || containsSub needle t

/-- Python `needle in hay` on strings. -/
def strContains (hay needle : String) : Bool :=
  containsSub needle.data hay.data

/-- The processed address-bar text of `smart_search`:
`self.address_bar.text().strip().lower()`. -/
def searchText (input : String) : String := pyLower (pyStrip input)

/-- The match test of the history loop in `smart_search`:
`text.lower() in item["title"].lower() or text.lower() in item["url"].lower()`. -/
def historyMatch (text : String) (item : HistoryEntry) : Bool :=
  strContains (pyLower item.title) (pyLower text) ||
    strContains (pyLower item.url) (pyLower text)

/-- The effect `smart_search` dispatches to: each constructor is one of the
handler calls in the source (`show_notes`, `toggle_mute`, `screenshot`,
`toggle_pomodoro`, `add_tab url`), or the early return on empty input. -/
inductive SearchAction where
  | noop
  | showNotes
  | toggleMute
  | screenshot
  | togglePomodoro
  | addTab (url : String)
deriving Repr, DecidableEq

/-- Model of `ModernBrowser.smart_search`, reified as the handler call it
performs.  `input` is `self.address_bar.text()`; `history` is
`self.history`.  The branch order follows the source: empty input, the
keyword dict, the `timer` head test, the newest-first history scan, the
URL heuristic, then the web-search fallback. -/
def smart_search (history : List HistoryEntry) (input : String) :
    SearchAction :=
  if searchText input = "" then .noop
  else if searchText input = "note" then .showNotes
  else if searchText input = "mute" then .toggleMute
  else if searchText input = "screenshot" then .screenshot
  else if pyStartsWith (searchText input) "timer" then .togglePomodoro
  else
    match history.reverse.find?
        (fun item => historyMatch (searchText input) item) with
    | some item => .addTab item.url
    | none =>
        if pyContainsChar (searchText input) '.' ||
            pyStartsWith (searchText input) "http" then
          .addTab
            (if pyStartsWith (searchText input) "http" then searchText input
             else "https://" ++ searchText input)
        else
          .addTab ("https://www.google.com/search?q=" ++ searchText input)

/-- Claim C6, counterexample: the input "ftp://a.b" is already prefixed with
a scheme, so the claim demands navigation to it unchanged; the code only
checks for the prefix "http" and produces "https://ftp://a.b". -/
theorem smart_search_scheme_refutes_C6 :
    smart_search [] "ftp://a.b" = .addTab "https://ftp://a.b" ∧
    smart_search [] "ftp://a.b" ≠ .addTab "ftp://a.b" := by
  constructor
  · rfl
  · decide

/-- Claim C6 (amended): for a trimmed, lowercased input that equals no
reserved keyword, does not start with "timer" and matches no history entry,
if it contains a '.' or starts with "http" then `smart_search` opens a tab
on the input prefixed with "https://" unless the input already starts with
"http" (not: with any scheme), in which case it is used unchanged. -/
theorem smart_search_url_heuristic (input : String)
    (history : List HistoryEntry)
    (hnote : searchText input ≠ "note")
    (hmute : searchText input ≠ "mute")
    (hshot : searchText input ≠ "screenshot")
    (htimer : pyStartsWith (searchText input) "timer" = false)
    (hhist : ∀ e ∈ history, historyMatch (searchText input) e = false)
    (hurl : (pyContainsChar (searchText input) '.' ||
             pyStartsWith (searchText input) "http") = true) :
    smart_search history input =
      .addTab
        (if pyStartsWith (searchText input) "http" then searchText input
         else "https://" ++ searchText input) := by
  have hne : searchText input ≠ "" := by
    intro h
    rw [h] at hurl
    exact absurd hurl (by decide)
  have hfind :
      history.reverse.find?
          (fun item => historyMatch (searchText input) item) = none := by
    rw [List.find?_eq_none]
    intro e he
    rw [List.mem_reverse] at he
    simp [hhist e he]
  unfold smart_search
  rw [if_neg hne, if_neg hnote, if_neg hmute, if_neg hshot,
    if_neg (by rw [htimer]; exact Bool.false_ne_true), hfind]
  rw [if_pos hurl]

/-- Claim C6 witness: "example.com" with an empty history resolves to
opening "https://example.com". -/
theorem smart_search_url_heuristic_witness :
    (searchText "example.com" ≠ "note") ∧
    smart_search [] "example.com" =
      .addTab
        (if pyStartsWith (searchText "example.com") "http" then
          searchText "example.com"
        else "https://" ++ searchText "example.com") := by
  exact ⟨by decide,
    smart_search_url_heuristic "example.com" [] (by decide) (by decide)
      (by decide) (by decide) (by intro e he; cases he) (by decide)⟩

/-- Claim C7, counterexample: the fallback search query is the trimmed,
lowercased text, not the raw input as typed — "Weather Today" is searched
as "weather today". -/
theorem smart_search_lowercase_refutes_C7 :
    smart_search [] "Weather Today" =
      .addTab "https://www.google.com/search?q=weather today" ∧
    smart_search [] "Weather Today" ≠
      .addTab "https://www.google.com/search?q=Weather Today" := by
  constructor
  · rfl
  · decide

/-- Claim C7 (amended): for an input whose trimmed, lowercased text is
non-empty, equals no reserved keyword, does not start with "timer", matches
no history entry, contains no '.' and does not start with "http",
`smart_search` falls back to the web-search URL whose query term is that
trimmed, lowercased text (not the raw input). -/
theorem smart_search_fallback (input : String)
    (history : List HistoryEntry)
    (hne : searchText input ≠ "")
    (hnote : searchText input ≠ "note")
    (hmute : searchText input ≠ "mute")
    (hshot : searchText input ≠ "screenshot")
    (htimer : pyStartsWith (searchText input) "timer" = false)
    (hhist : ∀ e ∈ history, historyMatch (searchText input) e = false)
    (hdot : pyContainsChar (searchText input) '.' = false)
    (hhttp : pyStartsWith (searchText input) "http" = false) :
    smart_search history input =
      .addTab ("https://www.google.com/search?q=" ++ searchText input) := by
  have hfind :
      history.reverse.find?
          (fun item => historyMatch (searchText input) item) = none := by
    rw [List.find?_eq_none]
    intro e he
    rw [List.mem_reverse] at he
    simp [hhist e he]
  unfold smart_search
  rw [if_neg hne, if_neg hnote, if_neg hmute, if_neg hshot,
    if_neg (by rw [htimer]; exact Bool.false_ne_true), hfind]
  rw [if_neg (by rw [hdot, hhttp]; exact Bool.false_ne_true)]

/-- Claim C7 witness: "weather today" with an empty history resolves to the
web search for "weather today". -/
theorem smart_search_fallback_witness :
    (searchText "weather today" ≠ "") ∧
    smart_search [] "weather today" =
      .addTab
        ("https://www.google.com/search?q=" ++ searchText "weather today") := by
  exact ⟨by decide,
    smart_search_fallback "weather today" [] (by decide) (by decide)
      (by decide) (by decide) (by decide) (by intro e he; cases he)
      (by decide) (by decide)⟩

/-! ## Tab lifecycle (`add_tab`, `close_tab`, `add_plus_tab`)

The `QTabWidget` semantics made explicit below: `addTab` appends and makes
the new page current only if the widget was empty; `removeTab` with an
out-of-range index is a no-op, and removing the current tab selects the tab
to its right (Qt default `SelectRightTab`), clamped to the new last index;
`setCurrentIndex` with an out-of-range index is ignored; `clear` empties the
widget and sets the current index to -1. -/

/-- Qt `QTabWidget.addTab`: append a page; if the widget was empty the new
page becomes current.  The new page's index is `tabs.length - 1` after the
call. -/
def widgetAddTab (b : Browser) (s : TabSlot) : Browser :=
  { b with tabs := b.tabs ++ [s],
           currentIndex := if b.tabs.isEmpty then 0 else b.currentIndex }

/-- Qt `QTabWidget.removeTab idx`: remove the page at `idx` (no-op when out
of range); when the current tab is removed, the tab to its right becomes
current (clamped to the last index), and indices above the removed one
shift down. -/
def widgetRemoveTab (b : Browser) (idx : Nat) : Browser :=
  if idx < b.tabs.length then
    let tabs := b.tabs.eraseIdx idx
    { b with tabs := tabs,
             currentIndex :=
               if tabs.isEmpty then -1
               else if (idx : Int) < b.currentIndex then b.currentIndex - 1
               else if (idx : Int) = b.currentIndex then
                 min b.currentIndex ((tabs.length : Int) - 1)
               else b.currentIndex }
  else b

/-- Qt `QTabWidget.setCurrentIndex i`: ignored when `i` is out of range. -/
def widgetSetCurrent (b : Browser) (i : Int) : Browser :=
  if 0 ≤ i ∧ i < (b.tabs.length : Int) then { b with currentIndex := i }
  else b

/-- Qt `QTabWidget.clear`. -/
def widgetClear (b : Browser) : Browser :=
  { b with tabs := [], currentIndex := -1 }

/-- Model of `ModernBrowser.add_plus_tab`: append the special "+" tab (the
`setTabButton ... None` call only hides its close button). -/
def add_plus_tab (b : Browser) : Browser := widgetAddTab b .plus

/-- Model of `ModernBrowser.save_note(tab)` (fired by `textChanged`):
store the note text under the tab's id in the notes dict and persist it. -/
def save_note_on (b : Browser) (id : Nat) (txt : String) : Browser :=
  { b with notes :=
      if b.notes.any (fun p => p.1 = id) then
        b.notes.map (fun p => if p.1 = id then (id, txt) else p)
      else b.notes ++ [(id, txt)] }

/-- The note-restoring step of `add_tab`: when a note is stored under the
new tab's id, `note_area.setText` fires `textChanged`, hence `save_note`
(which rewrites the same value); otherwise nothing happens. -/
def noteRestore (b : Browser) (id : Nat) (r : Option String) : Browser :=
  match r with
  | some txt => save_note_on b id txt
  | none => b

@[simp] theorem noteRestore_tabs (b : Browser) (id : Nat) (r : Option String) :
    (noteRestore b id r).tabs = b.tabs := by cases r <;> rfl

@[simp] theorem noteRestore_currentIndex (b : Browser) (id : Nat)
    (r : Option String) : (noteRestore b id r).currentIndex = b.currentIndex := by
  cases r <;> rfl

@[simp] theorem noteRestore_homeUrl (b : Browser) (id : Nat)
    (r : Option String) : (noteRestore b id r).homeUrl = b.homeUrl := by
  cases r <;> rfl

@[simp] theorem noteRestore_history (b : Browser) (id : Nat)
    (r : Option String) : (noteRestore b id r).history = b.history := by
  cases r <;> rfl

@[simp] theorem noteRestore_historyFile (b : Browser) (id : Nat)
    (r : Option String) : (noteRestore b id r).historyFile = b.historyFile := by
  cases r <;> rfl

@[simp] theorem noteRestore_session (b : Browser) (id : Nat)
    (r : Option String) : (noteRestore b id r).session = b.session := by
  cases r <;> rfl

@[simp] theorem noteRestore_sessionIndex (b : Browser) (id : Nat)
    (r : Option String) : (noteRestore b id r).sessionIndex = b.sessionIndex := by
  cases r <;> rfl

@[simp] theorem noteRestore_nextId (b : Browser) (id : Nat)
    (r : Option String) : (noteRestore b id r).nextId = b.nextId := by
  cases r <;> rfl

/-- Model of `ModernBrowser.add_tab(url)`.  `none` models the `url=None`
default; Python's `url = url or self.home_url` also replaces an empty
string by the home url.  The trailing "+" tab is removed first (detected by
its tab text), the new `BrowserTab` is appended with an empty tab text and a
fresh id, a note stored under that id is restored into the note area (the
`setText` fires `textChanged`, hence `save_note`), the new tab is made
current and the "+" tab is re-appended. -/
def add_tab (b : Browser) (url? : Option String) : Browser :=
  let url := match url? with
    | none => b.homeUrl
    | some u => if u = "" then b.homeUrl else u
  let b1 :=
    match b.tabs.getLast? with
    | some s => if tabText s = "+" then widgetRemoveTab b (b.tabs.length - 1)
                else b
    | none => b
  let newId := b1.nextId
  let restored := (b1.notes.find? (fun p => p.1 = newId)).map (fun p => p.2)
  let tab : BrowserTab :=
    { tabId := newId, url := url, title := "", text := "",
      noteText := restored.getD "" }
  let b2 := widgetAddTab b1 (.browser tab)
  let idx : Int := (b2.tabs.length : Int) - 1
  let b3 := noteRestore b2 newId restored
  let b4 := widgetSetCurrent b3 idx
  let b5 := add_plus_tab b4
  { b5 with nextId := b5.nextId + 1 }

/-- Model of `ModernBrowser.close_tab(idx)`.  When `idx` is not the last
slot (the "+" tab), the code removes the page at `idx`, then removes the
(new) last slot — the "+" tab — and re-appends a fresh "+" tab; afterwards,
if at most one slot is left, a new home tab is opened. -/
def close_tab (b : Browser) (idx : Nat) : Browser :=
  let b1 :=
    if (idx : Int) ≠ (b.tabs.length : Int) - 1 then
      let bA := widgetRemoveTab b idx
      let bB := widgetRemoveTab bA (bA.tabs.length - 1)
      add_plus_tab bB
    else b
  if b1.tabs.length ≤ 1 then add_tab b1 none else b1

/-- An `openTab`/`closeTab` call, as quantified over by claim C1. -/
inductive TabOp where
  | openTab (url : Option String)
  | closeTab (idx : Nat)
deriving Repr, DecidableEq

/-- Apply one tab operation. -/
def applyOp (b : Browser) : TabOp → Browser
  | .openTab url => add_tab b url
  | .closeTab idx => close_tab b idx

/-- Run a sequence of tab operations. -/
def runOps (b : Browser) (ops : List TabOp) : Browser :=
  ops.foldl applyOp b

/-- Well-formedness of the tab widget, established by `ModernBrowser`'s
initialisation and maintained by every operation: the last slot is the "+"
tab, every other slot is an ordinary tab whose displayed text is not "+",
and at least one ordinary tab is present. -/
def tabsWF (b : Browser) : Prop :=
  b.tabs.getLast? = some .plus ∧
  (∀ s ∈ b.tabs.dropLast, s.isBrowser = true ∧ tabText s ≠ "+") ∧
  2 ≤ b.tabs.length

instance tabsWF_decidable (b : Browser) : Decidable (tabsWF b) := by
  unfold tabsWF
  exact inferInstance

@[simp] theorem widgetAddTab_tabs (b : Browser) (s : TabSlot) :
    (widgetAddTab b s).tabs = b.tabs ++ [s] := rfl

@[simp] theorem widgetAddTab_homeUrl (b : Browser) (s : TabSlot) :
    (widgetAddTab b s).homeUrl = b.homeUrl := rfl

@[simp] theorem widgetAddTab_notes (b : Browser) (s : TabSlot) :
    (widgetAddTab b s).notes = b.notes := rfl

@[simp] theorem widgetAddTab_nextId (b : Browser) (s : TabSlot) :
    (widgetAddTab b s).nextId = b.nextId := rfl

@[simp] theorem widgetAddTab_session (b : Browser) (s : TabSlot) :
    (widgetAddTab b s).session = b.session := rfl

@[simp] theorem widgetAddTab_sessionIndex (b : Browser) (s : TabSlot) :
    (widgetAddTab b s).sessionIndex = b.sessionIndex := rfl

@[simp] theorem widgetRemoveTab_tabs (b : Browser) (idx : Nat) :
    (widgetRemoveTab b idx).tabs = b.tabs.eraseIdx idx := by
  unfold widgetRemoveTab
  split
  · rfl
  · next h => exact (List.eraseIdx_of_length_le (by omega)).symm

@[simp] theorem widgetRemoveTab_homeUrl (b : Browser) (idx : Nat) :
    (widgetRemoveTab b idx).homeUrl = b.homeUrl := by
  unfold widgetRemoveTab; split <;> rfl

@[simp] theorem widgetRemoveTab_notes (b : Browser) (idx : Nat) :
    (widgetRemoveTab b idx).notes = b.notes := by
  unfold widgetRemoveTab; split <;> rfl

@[simp] theorem widgetRemoveTab_nextId (b : Browser) (idx : Nat) :
    (widgetRemoveTab b idx).nextId = b.nextId := by
  unfold widgetRemoveTab; split <;> rfl

@[simp] theorem widgetRemoveTab_session (b : Browser) (idx : Nat) :
    (widgetRemoveTab b idx).session = b.session := by
  unfold widgetRemoveTab; split <;> rfl

@[simp] theorem widgetRemoveTab_sessionIndex (b : Browser) (idx : Nat) :
    (widgetRemoveTab b idx).sessionIndex = b.sessionIndex := by
  unfold widgetRemoveTab; split <;> rfl

@[simp] theorem widgetSetCurrent_tabs (b : Browser) (i : Int) :
    (widgetSetCurrent b i).tabs = b.tabs := by
  unfold widgetSetCurrent; split <;> rfl

@[simp] theorem widgetSetCurrent_homeUrl (b : Browser) (i : Int) :
    (widgetSetCurrent b i).homeUrl = b.homeUrl := by
  unfold widgetSetCurrent; split <;> rfl

@[simp] theorem widgetSetCurrent_notes (b : Browser) (i : Int) :
    (widgetSetCurrent b i).notes = b.notes := by
  unfold widgetSetCurrent; split <;> rfl

@[simp] theorem widgetSetCurrent_nextId (b : Browser) (i : Int) :
    (widgetSetCurrent b i).nextId = b.nextId := by
  unfold widgetSetCurrent; split <;> rfl

@[simp] theorem widgetSetCurrent_session (b : Browser) (i : Int) :
    (widgetSetCurrent b i).session = b.session := by
  unfold widgetSetCurrent; split <;> rfl

@[simp] theorem widgetSetCurrent_sessionIndex (b : Browser) (i : Int) :
    (widgetSetCurrent b i).sessionIndex = b.sessionIndex := by
  unfold widgetSetCurrent; split <;> rfl

@[simp] theorem ordinaryOf_nil : ordinaryOf [] = [] := rfl

@[simp] theorem ordinaryOf_cons_browser (t : BrowserTab) (l : List TabSlot) :
    ordinaryOf (.browser t :: l) = t :: ordinaryOf l := by
  simp [ordinaryOf]

@[simp] theorem ordinaryOf_cons_plus (l : List TabSlot) :
    ordinaryOf (.plus :: l) = ordinaryOf l := by
  simp [ordinaryOf]

@[simp] theorem ordinaryOf_append (l m : List TabSlot) :
    ordinaryOf (l ++ m) = ordinaryOf l ++ ordinaryOf m := by
  simp [ordinaryOf]

/-- On a list of ordinary slots, `ordinaryOf` keeps everything. -/
theorem ordinaryOf_length_of_all (l : List TabSlot)
    (h : ∀ s ∈ l, s.isBrowser = true) : (ordinaryOf l).length = l.length := by
  induction l with
  | nil => rfl
  | cons s t ih =>
      have hs := h s (List.mem_cons_self s t)
      have ht : ∀ x ∈ t, x.isBrowser = true :=
        fun x hx => h x (List.mem_cons_of_mem _ hx)
      cases s with
      | plus => simp [TabSlot.isBrowser] at hs
      | browser tb => simp [ih ht]

/-- Erasing the slot just before a final singleton removes that slot. -/
theorem eraseIdx_append_length (l : List TabSlot) (a : TabSlot) :
    (l ++ [a]).eraseIdx l.length = l := by
  have h : l.length + 1 = (l ++ [a]).length := by simp
  have hdrop := List.dropLast_eq_eraseIdx h
  rw [← hdrop, List.dropLast_concat]

/-- A well-formed widget splits as ordinary slots followed by the "+" tab. -/
theorem tabsWF_split (b : Browser) (hwf : tabsWF b) :
    ∃ pre : List TabSlot,
      b.tabs = pre ++ [TabSlot.plus] ∧
      (∀ s ∈ pre, s.isBrowser = true ∧ tabText s ≠ "+") ∧
      1 ≤ pre.length := by
  obtain ⟨hlast, hall, hlen⟩ := hwf
  have hne : b.tabs ≠ [] := by
    intro h0; rw [h0] at hlast; simp at hlast
  have hg : b.tabs.getLast hne = TabSlot.plus := by
    have := List.getLast?_eq_getLast b.tabs hne
    rw [this] at hlast
    exact Option.some.inj hlast
  refine ⟨b.tabs.dropLast, ?_, hall, ?_⟩
  · conv_lhs => rw [← List.dropLast_concat_getLast hne]
    rw [hg]
  · have : b.tabs.dropLast.length = b.tabs.length - 1 := by
      simp [List.length_dropLast]
    omega

/-- A state whose slots are well-formed ordinary slots, one more ordinary
tab whose text is not "+", and the "+" tab, is well-formed. -/
theorem tabsWF_of_shape (b : Browser) (good : List TabSlot) (t : BrowserTab)
    (htabs : b.tabs = good ++ [.browser t, .plus])
    (hgood : ∀ s ∈ good, s.isBrowser = true ∧ tabText s ≠ "+")
    (htext : t.text ≠ "+") : tabsWF b := by
  have hassoc : good ++ [TabSlot.browser t, TabSlot.plus] =
      (good ++ [TabSlot.browser t]) ++ [TabSlot.plus] := by simp
  refine ⟨?_, ?_, ?_⟩
  · rw [htabs, hassoc]
    exact List.getLast?_concat _
  · rw [htabs, hassoc, List.dropLast_concat]
    intro s hs
    rcases List.mem_append.mp hs with h | h
    · exact hgood s h
    · have : s = TabSlot.browser t := by simpa using h
      subst this
      exact ⟨rfl, by simpa [tabText] using htext⟩
  · rw [htabs]
    simp

/-- Characterisation of `add_tab` on a widget that is empty or ends in the
"+" tab (every state the program reaches): the slots before the "+" tab are
kept, a fresh ordinary tab with the requested url (home url when absent or
empty), empty title and empty tab text is appended, it becomes current, and
the "+" tab ends up last again.  The history, session and home url are
untouched. -/
theorem add_tab_spec (b : Browser) (url? : Option String)
    (h : b.tabs = [] ∨ b.tabs.getLast? = some TabSlot.plus) :
    ∃ t : BrowserTab,
      t.url = (match url? with
               | none => b.homeUrl
               | some u => if u = "" then b.homeUrl else u) ∧
      t.title = "" ∧ t.text = "" ∧
      (add_tab b url?).tabs = b.tabs.dropLast ++ [.browser t, .plus] ∧
      (add_tab b url?).currentIndex = (b.tabs.dropLast.length : Int) ∧
      (add_tab b url?).homeUrl = b.homeUrl ∧
      (add_tab b url?).history = b.history ∧
      (add_tab b url?).historyFile = b.historyFile ∧
      (add_tab b url?).session = b.session ∧
      (add_tab b url?).sessionIndex = b.sessionIndex := by
  cases h with
  | inl hnil =>
      refine ⟨{ tabId := b.nextId,
                url := match url? with
                  | none => b.homeUrl
                  | some u => if u = "" then b.homeUrl else u,
                title := "", text := "",
                noteText := ((b.notes.find? (fun p => p.1 = b.nextId)).map
                  (fun p => p.2)).getD "" },
              rfl, rfl, rfl, ?_, ?_, ?_, ?_, ?_, ?_, ?_⟩ <;>
        simp [add_tab, widgetAddTab, widgetSetCurrent, add_plus_tab, hnil]
  | inr hlast =>
      have hne : b.tabs ≠ [] := by
        intro h0
        rw [h0] at hlast
        simp at hlast
      have hpos : 0 < b.tabs.length := List.length_pos.mpr hne
      have hErase : b.tabs.eraseIdx (b.tabs.length - 1) = b.tabs.dropLast :=
        (List.dropLast_eq_eraseIdx (by omega)).symm
      have hsub : b.tabs.length - 1 < b.tabs.length := by omega
      refine ⟨{ tabId := b.nextId,
                url := match url? with
                  | none => b.homeUrl
                  | some u => if u = "" then b.homeUrl else u,
                title := "", text := "",
                noteText := ((b.notes.find? (fun p => p.1 = b.nextId)).map
                  (fun p => p.2)).getD "" },
              rfl, rfl, rfl, ?_, ?_, ?_, ?_, ?_, ?_, ?_⟩ <;>
        simp [add_tab, widgetAddTab, widgetSetCurrent, widgetRemoveTab,
          add_plus_tab, hlast, tabText, hsub, hErase]

/-- `add_tab` preserves well-formedness of the tab widget. -/
theorem add_tab_WF (b : Browser) (url? : Option String) (hwf : tabsWF b) :
    tabsWF (add_tab b url?) := by
  obtain ⟨t, _, _, htext, htabs, _⟩ := add_tab_spec b url? (Or.inr hwf.1)
  exact tabsWF_of_shape _ b.tabs.dropLast t htabs hwf.2.1
    (by rw [htext]; decide)

/-- `close_tab` preserves well-formedness of the tab widget. -/
theorem close_tab_WF (b : Browser) (idx : Nat) (hwf : tabsWF b) :
    tabsWF (close_tab b idx) := by
  obtain ⟨pre, hsplit, hallpre, hlenpre⟩ := tabsWF_split b hwf
  have hlentabs : b.tabs.length = pre.length + 1 := by rw [hsplit]; simp
  by_cases hc : (idx : Int) = (b.tabs.length : Int) - 1
  · have h1 : ¬ ((idx : Int) ≠ (b.tabs.length : Int) - 1) := by omega
    have h2 : ¬ (b.tabs.length ≤ 1) := by omega
    have hres : close_tab b idx = b := by
      unfold close_tab
      simp only [if_neg h1, if_neg h2]
    rw [hres]
    exact hwf
  · have hb1tabs :
        (add_plus_tab (widgetRemoveTab (widgetRemoveTab b idx)
            ((widgetRemoveTab b idx).tabs.length - 1))).tabs =
          pre.eraseIdx idx ++ [TabSlot.plus] := by
      by_cases hidx : idx < b.tabs.length
      · have hidxpre : idx < pre.length := by omega
        simp only [add_plus_tab, widgetAddTab_tabs, widgetRemoveTab_tabs]
        rw [hsplit, List.eraseIdx_append_of_lt_length hidxpre]
        have hl1 : (pre.eraseIdx idx ++ [TabSlot.plus]).length - 1 =
            (pre.eraseIdx idx).length := by simp
        rw [hl1, eraseIdx_append_length]
      · have hge : b.tabs.length ≤ idx := by omega
        simp only [add_plus_tab, widgetAddTab_tabs, widgetRemoveTab_tabs]
        rw [List.eraseIdx_of_length_le hge, hsplit]
        have hl1 : (pre ++ [TabSlot.plus]).length - 1 = pre.length := by simp
        rw [hl1, eraseIdx_append_length,
          List.eraseIdx_of_length_le (by omega : pre.length ≤ idx)]
    have hall2 : ∀ s ∈ pre.eraseIdx idx, s.isBrowser = true ∧ tabText s ≠ "+" :=
      fun s hs => hallpre s ((List.eraseIdx_sublist pre idx).mem hs)
    have hstep : close_tab b idx =
        (if (add_plus_tab (widgetRemoveTab (widgetRemoveTab b idx)
              ((widgetRemoveTab b idx).tabs.length - 1))).tabs.length ≤ 1 then
          add_tab (add_plus_tab (widgetRemoveTab (widgetRemoveTab b idx)
              ((widgetRemoveTab b idx).tabs.length - 1))) none
        else
          add_plus_tab (widgetRemoveTab (widgetRemoveTab b idx)
              ((widgetRemoveTab b idx).tabs.length - 1))) := by
      unfold close_tab
      rw [if_pos hc]
    rw [hstep]
    by_cases hsm :
        (add_plus_tab (widgetRemoveTab (widgetRemoveTab b idx)
            ((widgetRemoveTab b idx).tabs.length - 1))).tabs.length ≤ 1
    · rw [if_pos hsm]
      have hlastb1 :
          (add_plus_tab (widgetRemoveTab (widgetRemoveTab b idx)
              ((widgetRemoveTab b idx).tabs.length - 1))).tabs.getLast? =
            some TabSlot.plus := by
        rw [hb1tabs]
        exact List.getLast?_concat _
      obtain ⟨t, _, _, htext, htabs, _⟩ :=
        add_tab_spec _ none (Or.inr hlastb1)
      refine tabsWF_of_shape _ (pre.eraseIdx idx) t ?_ hall2
        (by rw [htext]; decide)
      rw [htabs, hb1tabs, List.dropLast_concat]
    · rw [if_neg hsm]
      have hlen2 : 1 ≤ (pre.eraseIdx idx).length := by
        by_contra hcon
        apply hsm
        rw [hb1tabs]
        simp only [List.length_append, List.length_cons, List.length_nil]
        omega
      refine ⟨?_, ?_, ?_⟩
      · rw [hb1tabs]
        exact List.getLast?_concat _
      · rw [hb1tabs, List.dropLast_concat]
        exact hall2
      · rw [hb1tabs]
        simp only [List.length_append, List.length_cons, List.length_nil]
        omega

/-- Every operation preserves well-formedness. -/
theorem applyOp_WF (b : Browser) (op : TabOp) (hwf : tabsWF b) :
    tabsWF (applyOp b op) := by
  cases op with
  | openTab url => exact add_tab_WF b url hwf
  | closeTab idx => exact close_tab_WF b idx hwf

/-- Running any sequence of operations preserves well-formedness. -/
theorem runOps_WF (ops : List TabOp) :
    ∀ b : Browser, tabsWF b → tabsWF (runOps b ops) := by
  induction ops with
  | nil => intro b hwf; exact hwf
  | cons op rest ih =>
      intro b hwf
      exact ih (applyOp b op) (applyOp_WF b op hwf)

/-- A well-formed widget holds at least one ordinary tab. -/
theorem tabsWF_ordinary_nonempty (b : Browser) (hwf : tabsWF b) :
    1 ≤ (ordinaryTabs b).length := by
  obtain ⟨pre, hsplit, hallpre, hlenpre⟩ := tabsWF_split b hwf
  have hlenord : (ordinaryOf pre).length = pre.length :=
    ordinaryOf_length_of_all pre (fun s hs => (hallpre s hs).1)
  unfold ordinaryTabs
  rw [hsplit, ordinaryOf_append]
  simp only [ordinaryOf_cons_plus, ordinaryOf_nil, List.append_nil]
  omega

/-- Closing the single ordinary tab of a well-formed widget leaves exactly
one ordinary tab, at the home url. -/
theorem close_last_ordinary_opens_home (b : Browser) (hwf : tabsWF b)
    (hone : (ordinaryTabs b).length = 1) :
    (ordinaryTabs (close_tab b 0)).map (fun t => t.url) = [b.homeUrl] := by
  obtain ⟨pre, hsplit, hallpre, hlenpre⟩ := tabsWF_split b hwf
  have hlenord : (ordinaryOf pre).length = pre.length :=
    ordinaryOf_length_of_all pre (fun s hs => (hallpre s hs).1)
  have hpre1 : pre.length = 1 := by
    unfold ordinaryTabs at hone
    rw [hsplit, ordinaryOf_append] at hone
    simp only [ordinaryOf_cons_plus, ordinaryOf_nil, List.append_nil] at hone
    omega
  have hlentabs : b.tabs.length = 2 := by rw [hsplit]; simp [hpre1]
  have hb1tabs :
      (add_plus_tab (widgetRemoveTab (widgetRemoveTab b 0)
          ((widgetRemoveTab b 0).tabs.length - 1))).tabs = [TabSlot.plus] := by
    simp only [add_plus_tab, widgetAddTab_tabs, widgetRemoveTab_tabs]
    rw [hsplit, List.eraseIdx_append_of_lt_length (by omega : 0 < pre.length)]
    have hl1 : (pre.eraseIdx 0 ++ [TabSlot.plus]).length - 1 =
        (pre.eraseIdx 0).length := by simp
    rw [hl1, eraseIdx_append_length]
    have : (pre.eraseIdx 0).length = 0 := by
      rw [List.length_eraseIdx_of_lt (by omega)]
      omega
    rw [List.length_eq_zero.mp this]
    rfl
  have hc1 : ((0 : Nat) : Int) ≠ (b.tabs.length : Int) - 1 := by omega
  have hc2 : (add_plus_tab (widgetRemoveTab (widgetRemoveTab b 0)
      ((widgetRemoveTab b 0).tabs.length - 1))).tabs.length ≤ 1 := by
    rw [hb1tabs]
    decide
  have hstep : close_tab b 0 =
      add_tab (add_plus_tab (widgetRemoveTab (widgetRemoveTab b 0)
          ((widgetRemoveTab b 0).tabs.length - 1))) none := by
    unfold close_tab
    simp only [if_pos hc1, if_pos hc2]
  have hlastb1 :
      (add_plus_tab (widgetRemoveTab (widgetRemoveTab b 0)
          ((widgetRemoveTab b 0).tabs.length - 1))).tabs.getLast? =
        some TabSlot.plus := by
    rw [hb1tabs]; rfl
  obtain ⟨t, hurl, _, _, htabs, _, _, _⟩ :=
    add_tab_spec _ none (Or.inr hlastb1)
  rw [hstep]
  unfold ordinaryTabs
  rw [htabs, hb1tabs]
  simp [hurl, add_plus_tab]

/-- Claim C1: starting from any well-formed state (at least one ordinary
tab, "+" tab last — the shape the program establishes at startup), after
any sequence of `add_tab`/`close_tab` operations at least one ordinary tab
remains (each intermediate state of a run is itself the result of a
shorter run, so the collection is non-empty after every operation); and
closing the last ordinary tab opens a fresh tab at the home url as part of
the close. -/
theorem tab_collection_never_empty (b : Browser) (ops : List TabOp)
    (hwf : tabsWF b) :
    1 ≤ (ordinaryTabs (runOps b ops)).length ∧
    ((ordinaryTabs b).length = 1 →
      (ordinaryTabs (close_tab b 0)).map (fun t => t.url) = [b.homeUrl]) := by
  constructor
  · exact tabsWF_ordinary_nonempty _ (runOps_WF ops b hwf)
  · intro hone
    exact close_last_ordinary_opens_home b hwf hone

/-- A concrete well-formed starting state with one ordinary tab. -/
def startBrowser : Browser :=
  { tabs := [.browser { tabId := 0, url := "https://google.com", title := "",
                        text := "", noteText := "" }, .plus],
    currentIndex := 0, homeUrl := "https://google.com", history := [],
    historyFile := [], notes := [], session := [], sessionIndex := 0,
    nextId := 1 }

/-- Claim C1 witness: a concrete run — open one tab, close two tabs — on the
concrete start state keeps the ordinary tab collection non-empty, and
closing its single ordinary tab reopens the home url. -/
theorem tab_collection_never_empty_witness :
    tabsWF startBrowser ∧
    (1 ≤ (ordinaryTabs (runOps startBrowser
        [TabOp.openTab (some "https://a"), TabOp.closeTab 0,
         TabOp.closeTab 0])).length ∧
      ((ordinaryTabs startBrowser).length = 1 →
        (ordinaryTabs (close_tab startBrowser 0)).map (fun t => t.url) =
          [startBrowser.homeUrl])) := by
  exact ⟨by decide,
    tab_collection_never_empty startBrowser
      [TabOp.openTab (some "https://a"), TabOp.closeTab 0, TabOp.closeTab 0]
      (by decide)⟩

/-! ## Session persistence (`save_session`, `restore_session`, notes) -/

@[simp] theorem widgetClear_tabs (b : Browser) : (widgetClear b).tabs = [] :=
  rfl

@[simp] theorem widgetClear_session (b : Browser) :
    (widgetClear b).session = b.session := rfl

@[simp] theorem widgetClear_sessionIndex (b : Browser) :
    (widgetClear b).sessionIndex = b.sessionIndex := rfl

@[simp] theorem widgetClear_homeUrl (b : Browser) :
    (widgetClear b).homeUrl = b.homeUrl := rfl

@[simp] theorem widgetClear_notes (b : Browser) :
    (widgetClear b).notes = b.notes := rfl

@[simp] theorem widgetClear_nextId (b : Browser) :
    (widgetClear b).nextId = b.nextId := rfl

/-- Model of `ModernBrowser.save_session`: capture `{title, url}` of every
ordinary (`BrowserTab`) page in display order into the persisted session
value (`session/last_session`), and the widget's current index into the
persisted session index (`session/last_session_index`). -/
def save_session (b : Browser) : Browser :=
  { b with
      session := (ordinaryTabs b).map
        (fun t => { title := t.title, url := t.url }),
      sessionIndex := b.currentIndex }

/-- The restore loop of `restore_session`:
`for tab in self.session: self.add_tab(tab["url"])`. -/
def openEntries (b : Browser) (entries : List HistoryEntry) : Browser :=
  entries.foldl (fun acc e => add_tab acc (some e.url)) b

/-- Model of `ModernBrowser.restore_session`: clear the widget; if the
persisted session is non-empty, re-open one tab per entry in order and set
the current index to the persisted index (ignored by Qt when out of range);
otherwise open a single home tab. -/
def restore_session (b : Browser) : Browser :=
  let b0 := widgetClear b
  if b0.session ≠ [] then
    let b1 := openEntries b0 b0.session
    widgetSetCurrent b1 b1.sessionIndex
  else add_tab b0 none

/-- A user typing `txt` into the note area of the ordinary tab at widget
slot `i`: `note_area.textChanged` fires `save_note`, which stores the text
under the tab's id and persists the notes dict. -/
def set_note (b : Browser) (i : Nat) (txt : String) : Browser :=
  match b.tabs[i]? with
  | some (.browser t) =>
      save_note_on
        { b with tabs := b.tabs.set i (.browser { t with noteText := txt }) }
        t.tabId txt
  | _ => b

/-- A list ending in the "+" slot splits off that slot. -/
theorem split_last_plus (l : List TabSlot)
    (h : l.getLast? = some TabSlot.plus) :
    l = l.dropLast ++ [TabSlot.plus] := by
  have hne : l ≠ [] := by
    intro h0; rw [h0] at h; simp at h
  have hg : l.getLast hne = TabSlot.plus := by
    have heq := List.getLast?_eq_getLast l hne
    rw [heq] at h
    exact Option.some.inj h
  conv_lhs => rw [← List.dropLast_concat_getLast hne]
  rw [hg]

@[simp] theorem widgetSetCurrent_currentIndex (b : Browser) (i : Int) :
    (widgetSetCurrent b i).currentIndex =
      (if 0 ≤ i ∧ i < (b.tabs.length : Int) then i else b.currentIndex) := by
  unfold widgetSetCurrent
  split <;> simp_all

/-- Effect of re-opening a list of session entries by folding `add_tab`
over a widget that ends in the "+" slot with the last ordinary tab current:
one ordinary tab per entry is appended in order (an empty stored url falls
back to the home url), the "+" slot stays last, the last opened tab is
current, and home url, session and session index are untouched. -/
theorem openEntries_spec (entries : List HistoryEntry) :
    ∀ b : Browser, b.tabs.getLast? = some TabSlot.plus →
      b.currentIndex = (b.tabs.length : Int) - 2 →
      (ordinaryOf (openEntries b entries).tabs).map (fun t => t.url) =
        (ordinaryOf b.tabs).map (fun t => t.url) ++
          entries.map (fun e => if e.url = "" then b.homeUrl else e.url) ∧
      (openEntries b entries).tabs.getLast? = some TabSlot.plus ∧
      (openEntries b entries).tabs.length = b.tabs.length + entries.length ∧
      (openEntries b entries).currentIndex =
        ((openEntries b entries).tabs.length : Int) - 2 ∧
      (openEntries b entries).homeUrl = b.homeUrl ∧
      (openEntries b entries).session = b.session ∧
      (openEntries b entries).sessionIndex = b.sessionIndex := by
  induction entries with
  | nil =>
      intro b hlast hcur
      exact ⟨by simp [openEntries], hlast, by simp [openEntries],
        by simpa [openEntries] using hcur, rfl, rfl, rfl⟩
  | cons e rest ih =>
      intro b hlast hcur
      obtain ⟨t, hurl, _, _, htabs, hcur2, hhome, _, _, hsess, hsidx⟩ :=
        add_tab_spec b (some e.url) (Or.inr hlast)
      have hsplitb : b.tabs = b.tabs.dropLast ++ [TabSlot.plus] :=
        split_last_plus b.tabs hlast
      have hlenb : b.tabs.length = b.tabs.dropLast.length + 1 := by
        conv_lhs => rw [hsplitb]
        simp
      have hlast2 : (add_tab b (some e.url)).tabs.getLast? =
          some TabSlot.plus := by
        rw [htabs,
          show b.tabs.dropLast ++ [TabSlot.browser t, TabSlot.plus] =
            (b.tabs.dropLast ++ [TabSlot.browser t]) ++ [TabSlot.plus] by
              simp]
        exact List.getLast?_concat _
      have hlen2 : (add_tab b (some e.url)).tabs.length =
          b.tabs.length + 1 := by
        rw [htabs]
        simp
        omega
      have hcur2' : (add_tab b (some e.url)).currentIndex =
          ((add_tab b (some e.url)).tabs.length : Int) - 2 := by
        rw [hcur2, hlen2, hlenb]
        push_cast
        ring
      have hstep : openEntries b (e :: rest) =
          openEntries (add_tab b (some e.url)) rest := by
        simp [openEntries]
      obtain ⟨ih1, ih2, ih3, ih4, ih5, ih6, ih7⟩ :=
        ih (add_tab b (some e.url)) hlast2 hcur2'
      rw [hstep]
      refine ⟨?_, ih2, ?_, ih4, by rw [ih5, hhome], by rw [ih6, hsess],
        by rw [ih7, hsidx]⟩
      · rw [ih1, htabs]
        have hordb : ordinaryOf b.tabs = ordinaryOf b.tabs.dropLast := by
          conv_lhs => rw [hsplitb]
          simp
        rw [hordb]
        simp [hurl, hhome]
      · rw [ih3, hlen2, List.length_cons]
        omega

/-- Full characterisation of `restore_session` on the persisted state: with
a non-empty saved session it opens one ordinary tab per entry in order (an
empty stored url falls back to the home url) followed by the "+" slot, and
the final current index is the saved one when it is a valid widget index
(which includes the trailing "+" slot at position `len`), and otherwise
stays at the last opened tab; with an empty session a single home tab is
opened and selected. -/
theorem restore_session_spec (b : Browser) :
    (b.session ≠ [] →
      (ordinaryOf (restore_session b).tabs).map (fun t => t.url) =
        b.session.map (fun e => if e.url = "" then b.homeUrl else e.url) ∧
      (restore_session b).tabs.length = b.session.length + 1 ∧
      (restore_session b).currentIndex =
        (if 0 ≤ b.sessionIndex ∧ b.sessionIndex ≤ (b.session.length : Int)
         then b.sessionIndex else (b.session.length : Int) - 1)) ∧
    (b.session = [] →
      (ordinaryOf (restore_session b).tabs).map (fun t => t.url) =
        [b.homeUrl] ∧
      (restore_session b).currentIndex = 0) := by
  constructor
  · intro hne
    have hres : restore_session b =
        widgetSetCurrent (openEntries (widgetClear b) b.session)
          (openEntries (widgetClear b) b.session).sessionIndex := by
      unfold restore_session
      rw [if_pos (by simpa using hne)]
      rfl
    obtain ⟨e, rest, hsess⟩ : ∃ e rest, b.session = e :: rest := by
      cases hs : b.session with
      | nil => exact absurd hs hne
      | cons e rest => exact ⟨e, rest, rfl⟩
    obtain ⟨t, hurl, _, _, htabs, hcur2, hhome, _, _, hsess2, hsidx2⟩ :=
      add_tab_spec (widgetClear b) (some e.url) (Or.inl rfl)
    have hlast2 : (add_tab (widgetClear b) (some e.url)).tabs.getLast? =
        some TabSlot.plus := by
      rw [htabs]
      simp
    have hcur2' : (add_tab (widgetClear b) (some e.url)).currentIndex =
        ((add_tab (widgetClear b) (some e.url)).tabs.length : Int) - 2 := by
      rw [hcur2, htabs]
      simp
    have hstep : openEntries (widgetClear b) (e :: rest) =
        openEntries (add_tab (widgetClear b) (some e.url)) rest := by
      simp [openEntries]
    obtain ⟨ih1, ih2, ih3, ih4, ih5, ih6, ih7⟩ :=
      openEntries_spec rest (add_tab (widgetClear b) (some e.url))
        hlast2 hcur2'
    have hlen1 : (add_tab (widgetClear b) (some e.url)).tabs.length = 2 := by
      rw [htabs]; simp
    have hord :
        (ordinaryOf (openEntries (widgetClear b) b.session).tabs).map
            (fun t => t.url) =
          b.session.map (fun e => if e.url = "" then b.homeUrl else e.url) := by
      rw [hsess, hstep, ih1, htabs]
      simp [hurl, hhome]
    have hlen : (openEntries (widgetClear b) b.session).tabs.length =
        b.session.length + 1 := by
      rw [hsess, hstep, ih3, hlen1, List.length_cons]
      omega
    have hsidx : (openEntries (widgetClear b) b.session).sessionIndex =
        b.sessionIndex := by
      rw [hsess, hstep, ih7, hsidx2]
      rfl
    have hcur : (openEntries (widgetClear b) b.session).currentIndex =
        ((b.session.length : Int)) - 1 := by
      rw [hsess] at hlen ⊢
      rw [hstep] at hlen ⊢
      rw [ih4, hlen]
      push_cast
      ring
    refine ⟨?_, ?_, ?_⟩
    · rw [hres]
      simpa using hord
    · rw [hres]
      simpa using hlen
    · rw [hres, widgetSetCurrent_currentIndex, hsidx, hlen, hcur]
      by_cases hin : 0 ≤ b.sessionIndex ∧
          b.sessionIndex ≤ (b.session.length : Int)
      · have hin2 : 0 ≤ b.sessionIndex ∧
            b.sessionIndex < ((b.session.length + 1 : Nat) : Int) := by
          push_cast
          omega
        rw [if_pos hin2, if_pos hin]
      · have hin2 : ¬ (0 ≤ b.sessionIndex ∧
            b.sessionIndex < ((b.session.length + 1 : Nat) : Int)) := by
          push_cast
          push_cast at hin
          omega
        rw [if_neg hin2, if_neg hin]
  · intro hnil
    have hres : restore_session b = add_tab (widgetClear b) none := by
      unfold restore_session
      rw [if_neg (by simpa using hnil)]
    obtain ⟨t, hurl, _, _, htabs, hcur2, hhome, _, _, _, _⟩ :=
      add_tab_spec (widgetClear b) none (Or.inl rfl)
    constructor
    · rw [hres, htabs]
      simp [hurl]
    · rw [hres, hcur2]
      simp

/-- Claim C5 (amended): with a non-empty snapshot, `restore_session` opens
one tab per entry in order (an empty stored url falls back to the home url)
and then applies the saved index: it is kept when it is a valid widget
index — `0 ≤ i ≤ len(tabs)`, where position `len(tabs)` is the trailing "+"
slot — and otherwise silently ignored, leaving the last opened tab current
(no clamping into `[0, len(tabs)-1]`, and no error surfaced either way);
with an empty snapshot a single home tab is opened and selected. -/
theorem restore_session_behaviour (b : Browser) :
    (b.session ≠ [] →
      (ordinaryOf (restore_session b).tabs).map (fun t => t.url) =
        b.session.map (fun e => if e.url = "" then b.homeUrl else e.url) ∧
      (restore_session b).tabs.length = b.session.length + 1 ∧
      (restore_session b).currentIndex =
        (if 0 ≤ b.sessionIndex ∧ b.sessionIndex ≤ (b.session.length : Int)
         then b.sessionIndex else (b.session.length : Int) - 1)) ∧
    (b.session = [] →
      (ordinaryOf (restore_session b).tabs).map (fun t => t.url) =
        [b.homeUrl] ∧
      (restore_session b).currentIndex = 0) :=
  restore_session_spec b

/-- A snapshot with one tab and saved index 1 (the trailing "+" slot). -/
def clampExample : Browser :=
  { emptyBrowser with
    session := [{ title := "t", url := "https://a" }],
    sessionIndex := 1 }

/-- Claim C5, counterexample: with one saved tab and saved index 1, the
claim demands the index be clamped into the range [0, 0]; the code's
`setCurrentIndex(1)` is a valid widget index (the trailing "+" slot), so it
is accepted and the final current index is 1, not 0. -/
theorem restore_session_refutes_C5 :
    (ordinaryOf (restore_session clampExample).tabs).length = 1 ∧
    (restore_session clampExample).currentIndex = 1 ∧
    (1 : Int) ≠ 0 := by
  decide

/-- A two-entry snapshot used to instantiate the restore behaviour. -/
def restoreExample : Browser :=
  { emptyBrowser with
    session := [{ title := "t", url := "https://a" },
                { title := "u", url := "https://b" }],
    sessionIndex := 0 }

/-- Claim C5 witness: restoring a concrete two-tab snapshot with saved
index 0. -/
theorem restore_session_behaviour_witness :
    (restoreExample.session ≠ []) ∧
    ((ordinaryOf (restore_session restoreExample).tabs).map (fun t => t.url) =
        restoreExample.session.map
          (fun e => if e.url = "" then restoreExample.homeUrl else e.url) ∧
      (restore_session restoreExample).tabs.length =
        restoreExample.session.length + 1 ∧
      (restore_session restoreExample).currentIndex =
        (if 0 ≤ restoreExample.sessionIndex ∧
            restoreExample.sessionIndex ≤ (restoreExample.session.length : Int)
         then restoreExample.sessionIndex
         else (restoreExample.session.length : Int) - 1)) :=
  ⟨by decide, (restore_session_behaviour restoreExample).1 (by decide)⟩

/-- Claim C4 (amended: provided every saved url is non-empty; an empty url
string is replaced by the home url on restore): `save_session` followed by
`restore_session` on a fresh manager holding the persisted session values
reproduces the ordinary tabs' urls in the same order and the same active
index. -/
theorem session_round_trip (b b2 : Browser) (k : Int)
    (hwf : tabsWF b) (hcur : b.currentIndex = k) (hk0 : 0 ≤ k)
    (hk : k < ((ordinaryTabs b).length : Int))
    (hurls : ∀ t ∈ ordinaryTabs b, t.url ≠ "")
    (hsess : b2.session = (save_session b).session)
    (hsidx : b2.sessionIndex = (save_session b).sessionIndex) :
    (ordinaryOf (restore_session b2).tabs).map (fun t => t.url) =
      (ordinaryTabs b).map (fun t => t.url) ∧
    (restore_session b2).currentIndex = k := by
  have hsess' : b2.session = (ordinaryTabs b).map
      (fun t => { title := t.title, url := t.url }) := by
    rw [hsess]; rfl
  have hsidx' : b2.sessionIndex = k := by
    rw [hsidx]
    show b.currentIndex = k
    exact hcur
  have hlen : b2.session.length = (ordinaryTabs b).length := by
    rw [hsess']; simp
  have hne : b2.session ≠ [] := by
    intro h0
    have h1 := tabsWF_ordinary_nonempty b hwf
    rw [h0] at hlen
    simp at hlen
    omega
  obtain ⟨hord, _, hcur2⟩ := (restore_session_spec b2).1 hne
  constructor
  · rw [hord, hsess', List.map_map]
    apply List.map_congr_left
    intro t ht
    simp only [Function.comp_apply]
    exact if_neg (hurls t ht)
  · rw [hcur2, hsidx', hlen, if_pos ⟨hk0, by omega⟩]

/-- A one-tab state whose live url is the empty string while the home url
is not. -/
def emptyUrlBrowser : Browser :=
  { tabs := [.browser { tabId := 0, url := "", title := "", text := "",
                        noteText := "" }, .plus],
    currentIndex := 0, homeUrl := "https://home", history := [],
    historyFile := [], notes := [], session := [], sessionIndex := 0,
    nextId := 1 }

/-- The fresh manager holding the session persisted from
`emptyUrlBrowser`. -/
def emptyUrlFresh : Browser :=
  { tabs := [], currentIndex := -1, homeUrl := "https://home",
    history := [], historyFile := [], notes := [],
    session := (save_session emptyUrlBrowser).session,
    sessionIndex := (save_session emptyUrlBrowser).sessionIndex,
    nextId := 1 }

/-- Claim C4, counterexample: a tab whose live url is the empty string does
not round-trip — `add_tab` replaces the empty saved url by the home url
(Python's `url = url or self.home_url`), so the restored url list differs
from the saved one. -/
theorem session_round_trip_refutes_C4 :
    (ordinaryTabs emptyUrlBrowser).map (fun t => t.url) = [""] ∧
    (ordinaryOf (restore_session emptyUrlFresh).tabs).map (fun t => t.url) =
      ["https://home"] ∧
    (["https://home"] : List String) ≠ [""] := by
  decide

/-- A two-tab state with non-empty urls and active index 0. -/
def roundTripBrowser : Browser :=
  { tabs := [.browser { tabId := 0, url := "https://a", title := "",
                        text := "", noteText := "" },
             .browser { tabId := 1, url := "https://b", title := "",
                        text := "", noteText := "" }, .plus],
    currentIndex := 0, homeUrl := "https://google.com", history := [],
    historyFile := [], notes := [], session := [], sessionIndex := 0,
    nextId := 2 }

/-- The fresh manager holding the session persisted from
`roundTripBrowser`. -/
def roundTripFresh : Browser :=
  { tabs := [], currentIndex := -1, homeUrl := "https://google.com",
    history := [], historyFile := [], notes := [],
    session := (save_session roundTripBrowser).session,
    sessionIndex := (save_session roundTripBrowser).sessionIndex,
    nextId := 2 }

/-- Claim C4 witness: the concrete two-tab session round-trips with the
same urls and index. -/
theorem session_round_trip_witness :
    tabsWF roundTripBrowser ∧
    ((ordinaryOf (restore_session roundTripFresh).tabs).map (fun t => t.url) =
        (ordinaryTabs roundTripBrowser).map (fun t => t.url) ∧
      (restore_session roundTripFresh).currentIndex = 0) :=
  ⟨by decide,
    session_round_trip roundTripBrowser roundTripFresh 0 (by decide) rfl
      (by decide) (by decide) (by decide) rfl rfl⟩

/-- A one-tab state on which a note is set at slot 0. -/
def noteBrowser : Browser :=
  { tabs := [.browser { tabId := 0, url := "https://a", title := "",
                        text := "", noteText := "" }, .plus],
    currentIndex := 0, homeUrl := "https://home", history := [],
    historyFile := [], notes := [], session := [], sessionIndex := 0,
    nextId := 1 }

/-- `noteBrowser` after typing "hello" into slot 0's note area and saving
the session. -/
def noteSaved : Browser := save_session (set_note noteBrowser 0 "hello")

/-- The fresh manager at the next start: the persisted settings (session,
session index, notes dict, home url) are carried over; the id counter
carries over too, modelling that `os.urandom(8).hex()` never reissues an id
already used as a stored note key. -/
def noteFresh : Browser :=
  { tabs := [], currentIndex := -1, homeUrl := "https://home",
    history := [], historyFile := [], notes := noteSaved.notes,
    session := noteSaved.session, sessionIndex := noteSaved.sessionIndex,
    nextId := noteSaved.nextId }

/-- Claim C3, evaluation at the failing input: typing "hello" into slot 0
stores it in the note area and in the persisted notes dict under the tab's
id 0, and the session snapshot records only `{title, url}`; after restoring
on a fresh manager the slot-0 tab carries a fresh id, its notes-dict lookup
misses, and its note text is "", not "hello" — the note does not persist
across the save/restore cycle. -/
theorem notes_lost_on_restore :
    (ordinaryTabs (set_note noteBrowser 0 "hello")).map
        (fun t => t.noteText) = ["hello"] ∧
    noteSaved.notes = [(0, "hello")] ∧
    noteSaved.session = [{ title := "", url := "https://a" }] ∧
    (ordinaryOf (restore_session noteFresh).tabs).map
        (fun t => t.noteText) = [""] ∧
    ("" : String) ≠ "hello" := by
  decide

end Quilix
